import Mathlib

/-!
Verification development for the CollabCanvas repository.

Part 1 models the real-time room synchronization engine (lock table,
drawing updates, membership).  Part 2 embeds the `useUndoRedo` hook of
`src/frontend/src/components/ui/UsernameChecker.tsx`.  Part 3 embeds the
`CharacterCounter` component of
`src/frontend/src/components/ui/CharacterCounter.tsx`.
-/

namespace CollabCanvas

/-- Modelled from the spec: the fan-out set of an outbound server event —
broadcast to all members, to everyone but the sender, or to the sender only. -/
inductive Dest
  | all
  | others
  | sender
deriving DecidableEq

/-- Modelled from the spec: a drawing element is an opaque serialized
descriptor (here `content`) plus a stable object identifier. -/
structure DrawingElement where
  objectId : String
  content : String
deriving DecidableEq

/-- Modelled from the spec: the server→client events relevant to the locking
and drawing protocol. -/
inductive ServerEvent
  | objectLocked (objectId userId : String)
  | objectUnlocked (objectId : String)
  | lockDenied (objectId lockedBy : String)
  | drawingUpdateEvt (element : DrawingElement)
  | userJoined (userId : String)
  | userLeft (userId : String)
  | errorEvt (message : String)
deriving DecidableEq

/-- Modelled from the spec: one outbound event together with its fan-out set. -/
structure Emit where
  dest : Dest
  event : ServerEvent
deriving DecidableEq

/-- Modelled from the spec: the authoritative in-memory model of one room —
member roster, ordered drawing-element list, and the lock table as an
association list of (objectId, holderId) pairs. -/
structure RoomState where
  participants : List String
  elements : List DrawingElement
  locks : List (String × String)
deriving DecidableEq

/-- Modelled from the spec: the error taxonomy entries the locking protocol
can raise. -/
inductive RoomError
  | ObjectNotFound
deriving DecidableEq

/-- Lookup of the current holder of an object in the lock table; `none`
means the object is unlocked. -/
def lookupLock : List (String × String) → String → Option String
  | [], _ => none
  | (k, v) :: rest, objectId => if k = objectId then some v else lookupLock rest objectId

/-- Whether an objectId corresponds to an existing drawing element. -/
def elemExists (r : RoomState) (objectId : String) : Bool :=
  r.elements.any (fun e => e.objectId == objectId)

/-- Modelled from the spec: `requestLock(roomId, objectId, identity)`.
Fails with `ObjectNotFound` for ghost objects; grants (insert/update plus an
`object-locked` broadcast to all members) when unlocked or on an idempotent
reacquire; denies (sender-only `lock-denied` naming the holder, no state
mutation) when held by a different identity. -/
def requestLock (r : RoomState) (objectId identity : String) :
    Except RoomError (RoomState × List Emit) :=
  if elemExists r objectId then
    match lookupLock r.locks objectId with
    | none =>
        .ok ({ r with locks := (objectId, identity) :: r.locks },
          [⟨Dest.all, ServerEvent.objectLocked objectId identity⟩])
    | some holder =>
        if holder = identity then
          .ok (r, [⟨Dest.all, ServerEvent.objectLocked objectId identity⟩])
        else
          .ok (r, [⟨Dest.sender, ServerEvent.lockDenied objectId holder⟩])
  else
    .error RoomError.ObjectNotFound

/-- Modelled from the spec: `releaseLock(roomId, objectId, identity)` succeeds
only if the current holder is `identity` (removing the entry and broadcasting
`object-unlocked` to all members); otherwise it is a silent no-op. -/
def releaseLock (r : RoomState) (objectId identity : String) : RoomState × List Emit :=
  match lookupLock r.locks objectId with
  | some holder =>
      if holder = identity then
        ({ r with locks := r.locks.filter (fun p => p.1 != objectId) },
          [⟨Dest.all, ServerEvent.objectUnlocked objectId⟩])
      else (r, [])
  | none => (r, [])

/-- Modelled from the spec: upsert of an element into the room's ordered list —
an existing objectId is overwritten in place, a new one is appended. -/
def upsertElement (es : List DrawingElement) (e : DrawingElement) : List DrawingElement :=
  if es.any (fun x => x.objectId == e.objectId) then
    es.map (fun x => if x.objectId = e.objectId then e else x)
  else
    es ++ [e]

/-- Modelled from the spec: `drawingUpdate(roomId, identity, element)`.  An
update to an existing objectId is accepted only if the object is unlocked or
locked by `identity`; otherwise it is rejected with a sender-only error and no
state change.  New objectIds (creation) are always accepted.  On acceptance
the element is upserted and `drawing-update` is broadcast to all others. -/
def drawingUpdate (r : RoomState) (identity : String) (element : DrawingElement) :
    RoomState × List Emit :=
  let allowed :=
    if elemExists r element.objectId then
      match lookupLock r.locks element.objectId with
      | none => true
      | some holder => holder == identity
    else true
  if allowed then
    ({ r with elements := upsertElement r.elements element },
      [⟨Dest.others, ServerEvent.drawingUpdateEvt element⟩])
  else
    (r, [⟨Dest.sender, ServerEvent.errorEvt "Object is locked by another user"⟩])

/-- Modelled from the spec: `leave(roomId, identity)` (explicit or via
disconnect) removes the participant, releases every lock held by that
identity (each release broadcast as `object-unlocked`), and broadcasts
`user-left`. -/
def leave (r : RoomState) (identity : String) : RoomState × List Emit :=
  let released := r.locks.filter (fun p => p.2 == identity)
  ({ participants := r.participants.filter (fun u => u != identity),
     elements := r.elements,
     locks := r.locks.filter (fun p => p.2 != identity) },
    released.map (fun p => Emit.mk Dest.all (ServerEvent.objectUnlocked p.1))
      ++ [⟨Dest.all, ServerEvent.userLeft identity⟩])

/-- Modelled from the spec: the membership effect of `join` needed by the lock
invariants — the identity is added to the roster and `user-joined` goes to the
other members (password and ban checks are outside the claims modelled). -/
def join (r : RoomState) (identity : String) : RoomState × List Emit :=
  if r.participants.contains identity then
    (r, [])
  else
    ({ r with participants := identity :: r.participants },
      [⟨Dest.others, ServerEvent.userJoined identity⟩])

/-- Modelled from the spec: the client→server events that mutate a room. -/
inductive Op
  | reqLock (objectId identity : String)
  | relLock (objectId identity : String)
  | draw (identity : String) (element : DrawingElement)
  | leaveOp (identity : String)
  | joinOp (identity : String)

/-- Dispatch of one event against a room state; a `requestLock` failure is
reported to the sender only and leaves the state unchanged. -/
def applyOp (r : RoomState) : Op → RoomState × List Emit
  | Op.reqLock oid uid =>
      match requestLock r oid uid with
      | Except.ok res => res
      | Except.error _ => (r, [⟨Dest.sender, ServerEvent.errorEvt "Object not found"⟩])
  | Op.relLock oid uid => releaseLock r oid uid
  | Op.draw uid e => drawingUpdate r uid e
  | Op.leaveOp uid => leave r uid
  | Op.joinOp uid => join r uid

/-- The room state after a sequence of events. -/
def runOps (r : RoomState) (ops : List Op) : RoomState :=
  ops.foldl (fun s op => (applyOp s op).1) r

/-- Well-formedness of the lock table: at most one entry per objectId. -/
def locksWF (r : RoomState) : Prop := (r.locks.map Prod.fst).Nodup

/-- `identity` observes a granted lock on `objectId`. -/
def holdsLock (r : RoomState) (objectId identity : String) : Prop :=
  lookupLock r.locks objectId = some identity

/-- Every lock's holder is a currently-joined participant. -/
def holdersJoined (r : RoomState) : Prop := ∀ p ∈ r.locks, p.2 ∈ r.participants

/-- Side condition for an event: a lock requester must be a joined
participant (the event router resolves the identity of a live session). -/
def opOk (r : RoomState) : Op → Prop
  | Op.reqLock _ uid => uid ∈ r.participants
  | _ => True

end CollabCanvas

namespace UndoRedo

/-- Configuration of the `useUndoRedo` hook
(`UsernameChecker.tsx`): history cap, identical-state suppression, and a
custom ignore predicate. -/
structure UndoRedoConfig (T : Type) where
  maxHistorySize : Nat := 50
  ignoreIdenticalStates : Bool := true
  shouldIgnore : T → Bool := fun _ => false

/-- The hook's history state: `past`, `present`, `future`. -/
structure HistoryState (T : Type) where
  past : List T
  present : T
  future : List T
deriving DecidableEq

/-- `newPast.length > maxHistorySize ? newPast.slice(-maxHistorySize) : newPast`.
JavaScript `slice(-0)` equals `slice(0)` (the whole array), hence the
`maxHistorySize = 0` branch. -/
def limitPast (maxHistorySize : Nat) (newPast : List T) : List T :=
  if newPast.length > maxHistorySize then
    if maxHistorySize = 0 then newPast
    else newPast.drop (newPast.length - maxHistorySize)
  else newPast

/-- `setState(newState, addToHistory)`: skips identical states (when
configured) and states matched by `shouldIgnore`; when recording history it
pushes `present` onto a capped `past` and clears `future`. -/
def setState [DecidableEq T] (cfg : UndoRedoConfig T) (s : HistoryState T)
    (newState : T) (addToHistory : Bool) : HistoryState T :=
  if cfg.ignoreIdenticalStates && newState = s.present then s
  else if cfg.shouldIgnore newState then s
  else if addToHistory then
    { past := limitPast cfg.maxHistorySize (s.past ++ [s.present]),
      present := newState, future := [] }
  else
    { s with present := newState }

/-- `undo()`: no-op on empty `past`; otherwise pops the last past state into
`present` and pushes the old `present` onto the front of `future`. -/
def undo (s : HistoryState T) : HistoryState T :=
  match s.past.getLast? with
  | none => s
  | some previous =>
      { past := s.past.dropLast, present := previous, future := s.present :: s.future }

/-- `redo()`: no-op on empty `future`; otherwise shifts the first future state
into `present` and pushes the old `present` onto a capped `past`. -/
def redo (cfg : UndoRedoConfig T) (s : HistoryState T) : HistoryState T :=
  match s.future with
  | [] => s
  | next :: rest =>
      { past := limitPast cfg.maxHistorySize (s.past ++ [s.present]),
        present := next, future := rest }

/-- `replaceState(newState)`: sets `present` without touching history. -/
def replaceState (s : HistoryState T) (newState : T) : HistoryState T :=
  { s with present := newState }

/-- `clearHistory()`: empties `past` and `future`. -/
def clearHistory (s : HistoryState T) : HistoryState T :=
  { s with past := [], future := [] }

/-- `canUndo: past.length > 0`. -/
def canUndo (s : HistoryState T) : Bool := decide (s.past.length > 0)

/-- `canRedo: future.length > 0`. -/
def canRedo (s : HistoryState T) : Bool := decide (s.future.length > 0)

/-- The hook's state-changing calls. -/
inductive HOp (T : Type)
  | set (newState : T) (addToHistory : Bool)
  | undoOp
  | redoOp
  | replace (newState : T)
  | clear

/-- Dispatch of one call against a history state. -/
def applyHOp [DecidableEq T] (cfg : UndoRedoConfig T) (s : HistoryState T) :
    HOp T → HistoryState T
  | HOp.set x b => setState cfg s x b
  | HOp.undoOp => undo s
  | HOp.redoOp => redo cfg s
  | HOp.replace x => replaceState s x
  | HOp.clear => clearHistory s

/-- The history state after a sequence of calls, starting from the hook's
initial state `{past: [], present: initialState, future: []}`. -/
def runHOps [DecidableEq T] (cfg : UndoRedoConfig T) (initialState : T)
    (ops : List (HOp T)) : HistoryState T :=
  ops.foldl (applyHOp cfg) { past := [], present := initialState, future := [] }

end UndoRedo

namespace Counter

/-- The observable outputs of `CharacterCounter`
(`CharacterCounter.tsx`): status class, status message, and the rendered
progress-bar width in percent. -/
structure CounterResult where
  status : String
  message : String
  widthPercent : ℚ
deriving DecidableEq

/-- `remaining >= 0 ? remaining + " characters remaining" :
"Exceeds limit by " + abs(remaining) + " characters"`. -/
def getMessage (remaining : Int) : String :=
  if remaining ≥ 0 then
    toString remaining ++ " characters remaining"
  else
    "Exceeds limit by " ++ toString remaining.natAbs ++ " characters"

/-- The `CharacterCounter` component: `percentage = currentLength/maxLength*100`,
status is `warning` when `percentage >= warningThreshold && percentage < 100`,
else `danger` when `currentLength > maxLength`, else `normal`; the progress-bar
width is `min(percentage, 100)`. -/
def characterCounter (currentLength maxLength : Nat) (warningThreshold : ℚ) :
    CounterResult :=
  let percentage : ℚ := (currentLength : ℚ) / (maxLength : ℚ) * 100
  let remaining : Int := (maxLength : Int) - (currentLength : Int)
  let status :=
    if warningThreshold ≤ percentage ∧ percentage < 100 then "warning"
    else if (maxLength : Int) < (currentLength : Int) then "danger"
    else "normal"
  { status := status
    message := getMessage remaining
    widthPercent := min percentage 100 }

end Counter

namespace CollabCanvas

lemma lookupLock_filter_self (l : List (String × String)) (oid : String) :
    lookupLock (l.filter (fun p => p.1 != oid)) oid = none := by
  induction l with
  | nil => simp [lookupLock]
  | cons p rest ih =>
      obtain ⟨a, b⟩ := p
      by_cases h : a = oid
      · simp [List.filter_cons, h, ih]
      · simp [List.filter_cons, h, lookupLock, ih]

lemma lookupLock_filter_other (l : List (String × String)) (oid k : String)
    (h : k ≠ oid) :
    lookupLock (l.filter (fun p => p.1 != oid)) k = lookupLock l k := by
  induction l with
  | nil => simp
  | cons p rest ih =>
      obtain ⟨a, b⟩ := p
      by_cases ha : a = oid
      · subst ha
        simp [List.filter_cons, lookupLock, Ne.symm h, ih]
      · by_cases hk : a = k
        · subst hk
          simp [List.filter_cons, ha, lookupLock, ih]
        · simp [List.filter_cons, ha, lookupLock, hk, ih]

lemma lookupLock_eq_none_iff (l : List (String × String)) (k : String) :
    lookupLock l k = none ↔ k ∉ l.map Prod.fst := by
  induction l with
  | nil => simp [lookupLock]
  | cons p rest ih =>
      obtain ⟨a, b⟩ := p
      by_cases h : a = k
      · subst h
        simp [lookupLock]
      · simp [lookupLock, h, Ne.symm h, ih]

lemma nodup_keys_filter {l : List (String × String)} (p : String × String → Bool)
    (h : (l.map Prod.fst).Nodup) : ((l.filter p).map Prod.fst).Nodup :=
  h.sublist ((l.filter_sublist).map Prod.fst)

lemma drawingUpdate_fst_locks (r : RoomState) (identity : String) (e : DrawingElement) :
    (drawingUpdate r identity e).1.locks = r.locks := by
  simp only [drawingUpdate]
  split <;> first | rfl | (split <;> rfl)

lemma drawingUpdate_fst_participants (r : RoomState) (identity : String)
    (e : DrawingElement) :
    (drawingUpdate r identity e).1.participants = r.participants := by
  simp only [drawingUpdate]
  split <;> first | rfl | (split <;> rfl)

lemma locksWF_applyOp (r : RoomState) (op : Op) (h : locksWF r) :
    locksWF (applyOp r op).1 := by
  cases op with
  | reqLock oid uid =>
      simp only [applyOp]
      by_cases hex : elemExists r oid
      · cases hl : lookupLock r.locks oid with
        | none =>
            have hnot : oid ∉ r.locks.map Prod.fst := (lookupLock_eq_none_iff _ _).mp hl
            simp only [requestLock, hex, if_true, hl]
            exact List.Nodup.cons hnot h
        | some holder =>
            by_cases hh : holder = uid <;>
              simp only [requestLock, hex, if_true, hl, hh, if_false] <;> exact h
      · simp only [requestLock, hex]
        simpa using h
  | relLock oid uid =>
      simp only [applyOp, releaseLock]
      cases hl : lookupLock r.locks oid with
      | none => exact h
      | some holder =>
          by_cases hh : holder = uid
          · simp only [hh, if_true]
            exact nodup_keys_filter _ h
          · simp only [hh, if_false]
            exact h
  | draw uid e =>
      unfold locksWF
      show ((drawingUpdate r uid e).1.locks.map Prod.fst).Nodup
      rw [drawingUpdate_fst_locks]
      exact h
  | leaveOp uid =>
      simp only [applyOp, leave]
      exact nodup_keys_filter _ h
  | joinOp uid =>
      simp only [applyOp, join]
      split <;> exact h

lemma locksWF_runOps (r : RoomState) (ops : List Op) (h : locksWF r) :
    locksWF (runOps r ops) := by
  induction ops generalizing r with
  | nil => exact h
  | cons op rest ih => exact ih _ (locksWF_applyOp r op h)

lemma length_filter_key_le_one {l : List (String × String)} (oid : String)
    (h : (l.map Prod.fst).Nodup) :
    (l.filter (fun p => p.1 == oid)).length ≤ 1 := by
  induction l with
  | nil => simp
  | cons p rest ih =>
      obtain ⟨a, b⟩ := p
      simp only [List.map_cons, List.nodup_cons] at h
      by_cases ha : a = oid
      · subst ha
        have hrest : rest.filter (fun p => p.1 == a) = [] := by
          rw [List.filter_eq_nil_iff]
          intro q hq hpq
          exact h.1 (List.mem_map.mpr ⟨q, hq, beq_iff_eq.mp hpq⟩)
        simp [List.filter_cons, hrest]
      · simp only [List.filter_cons]
        have : ((a, b).1 == oid) = false := beq_eq_false_iff_ne.mpr ha
        simp only [this, cond_false, Bool.false_eq_true, if_false]
        exact ih h.2

/-- C1: after any sequence of room events from any identities, the lock table
holds at most one (objectId, holderId) entry per objectId, at most one
identity observes a granted lock on any objectId, and an objectId absent from
the table is unlocked (held by nobody). -/
theorem lock_mutual_exclusion (r : RoomState) (ops : List Op) (h : locksWF r) :
    locksWF (runOps r ops) ∧
    (∀ objectId, ((runOps r ops).locks.filter (fun p => p.1 == objectId)).length ≤ 1) ∧
    (∀ objectId u v,
      holdsLock (runOps r ops) objectId u → holdsLock (runOps r ops) objectId v → u = v) ∧
    (∀ objectId, lookupLock (runOps r ops).locks objectId = none →
      ∀ u, ¬ holdsLock (runOps r ops) objectId u) := by
  have hwf : locksWF (runOps r ops) := locksWF_runOps r ops h
  refine ⟨hwf, fun objectId => length_filter_key_le_one objectId hwf,
    fun objectId u v hu hv => ?_, fun objectId hnone u hu => ?_⟩
  · unfold holdsLock at hu hv
    rw [hu] at hv
    exact Option.some.inj hv
  · unfold holdsLock at hu
    rw [hnone] at hu
    exact Option.noConfusion hu


lemma holdersJoined_applyOp (r : RoomState) (op : Op)
    (hJ : holdersJoined r) (hOk : opOk r op) : holdersJoined (applyOp r op).1 := by
  cases op with
  | reqLock oid uid =>
      have huid : uid ∈ r.participants := hOk
      simp only [applyOp]
      by_cases hex : elemExists r oid
      · cases hl : lookupLock r.locks oid with
        | none =>
            simp only [requestLock, hex, if_true, hl]
            intro p hp
            rcases List.mem_cons.mp hp with h1 | h1
            · rw [h1]
              exact huid
            · exact hJ p h1
        | some holder =>
            by_cases hh : holder = uid <;>
              simp only [requestLock, hex, if_true, hl, hh, if_false] <;> exact hJ
      · simp only [requestLock, hex]
        simpa using hJ
  | relLock oid uid =>
      simp only [applyOp, releaseLock]
      cases hl : lookupLock r.locks oid with
      | none => exact hJ
      | some holder =>
          by_cases hh : holder = uid
          · simp only [hh, if_true]
            intro p hp
            exact hJ p (List.mem_of_mem_filter hp)
          · simp only [hh, if_false]
            exact hJ
  | draw uid e =>
      intro p hp
      have hp2 : p ∈ (drawingUpdate r uid e).1.locks := hp
      rw [drawingUpdate_fst_locks] at hp2
      show p.2 ∈ (drawingUpdate r uid e).1.participants
      rw [drawingUpdate_fst_participants]
      exact hJ p hp2
  | leaveOp uid =>
      simp only [applyOp, leave]
      intro p hp
      rcases List.mem_filter.mp hp with ⟨hmem, hne⟩
      exact List.mem_filter.mpr ⟨hJ p hmem, hne⟩
  | joinOp uid =>
      simp only [applyOp, join]
      by_cases hc : r.participants.contains uid
      · simp only [hc, if_true]
        exact hJ
      · simp only [hc, Bool.false_eq_true, if_false]
        intro p hp
        exact List.mem_cons_of_mem uid (hJ p hp)

/-- Whether an emitted event is an `object-unlocked` broadcast payload. -/
def isObjectUnlocked (em : Emit) : Bool :=
  match em.event with
  | ServerEvent.objectUnlocked _ => true
  | _ => false

/-- C4: `leave` removes the participant, leaves no lock entry held by the
departing identity, emits exactly one `object-unlocked` broadcast per lock the
identity held (all events broadcast to all members), and broadcasts
`user-left`; moreover every room event preserves the invariant that each
lock's holder is a currently-joined participant. -/
theorem leave_releases_all_locks (r : RoomState) (identity : String) (op : Op)
    (hJ : holdersJoined r) (hOk : opOk r op) :
    identity ∉ (leave r identity).1.participants ∧
    (∀ p ∈ (leave r identity).1.locks, p.2 ≠ identity) ∧
    ((leave r identity).2.countP isObjectUnlocked)
      = r.locks.countP (fun p => p.2 == identity) ∧
    (∀ em ∈ (leave r identity).2, em.dest = Dest.all) ∧
    (Emit.mk Dest.all (ServerEvent.userLeft identity)) ∈ (leave r identity).2 ∧
    holdersJoined (applyOp r op).1 := by
  refine ⟨?_, ?_, ?_, ?_, ?_, holdersJoined_applyOp r op hJ hOk⟩
  · simp [leave]
  · intro p hp
    simp only [leave] at hp
    exact bne_iff_ne.mp (List.mem_filter.mp hp).2
  · simp only [leave, List.countP_append, List.countP_map]
    have h1 : (r.locks.filter (fun p => p.2 == identity)).countP
        (isObjectUnlocked ∘ fun p => Emit.mk Dest.all (ServerEvent.objectUnlocked p.1))
        = (r.locks.filter (fun p => p.2 == identity)).length := by
      apply List.countP_eq_length.mpr
      intro p _
      rfl
    rw [h1, ← List.countP_eq_length_filter]
    simp [isObjectUnlocked]
  · intro em hem
    simp only [leave] at hem
    rcases List.mem_append.mp hem with h1 | h1
    · rcases List.mem_map.mp h1 with ⟨p, _, hp⟩
      rw [← hp]
    · rw [List.mem_singleton.mp h1]
  · simp [leave]

/-- C4 witness: a participant holding two of three locks leaves; both are
released with broadcasts. -/
theorem leave_releases_all_locks_witness :
    holdersJoined (RoomState.mk ["a", "b"] [⟨"o1", "c"⟩]
      [("o1", "a"), ("o2", "b"), ("o3", "a")]) ∧
    opOk (RoomState.mk ["a", "b"] [⟨"o1", "c"⟩]
      [("o1", "a"), ("o2", "b"), ("o3", "a")]) (Op.leaveOp "a") ∧
    ((leave (RoomState.mk ["a", "b"] [⟨"o1", "c"⟩]
      [("o1", "a"), ("o2", "b"), ("o3", "a")]) "a").2.countP isObjectUnlocked)
      = (RoomState.mk ["a", "b"] [⟨"o1", "c"⟩]
        [("o1", "a"), ("o2", "b"), ("o3", "a")]).locks.countP (fun p => p.2 == "a") ∧
    (Emit.mk Dest.all (ServerEvent.userLeft "a")) ∈
      (leave (RoomState.mk ["a", "b"] [⟨"o1", "c"⟩]
        [("o1", "a"), ("o2", "b"), ("o3", "a")]) "a").2 := by
  have h := leave_releases_all_locks (RoomState.mk ["a", "b"] [⟨"o1", "c"⟩]
    [("o1", "a"), ("o2", "b"), ("o3", "a")]) "a" (Op.leaveOp "a")
    (by intro p hp; fin_cases hp <;> simp) trivial
  exact ⟨by intro p hp; fin_cases hp <;> simp, trivial, h.2.2.1, h.2.2.2.2.1⟩

/-- C1 witness: two identities contend for the same object; after the
sequence, the table is still well-formed. -/
theorem lock_mutual_exclusion_witness :
    locksWF (RoomState.mk ["alice", "bob"] [⟨"o1", "c"⟩] []) ∧
    locksWF (runOps (RoomState.mk ["alice", "bob"] [⟨"o1", "c"⟩] [])
      [Op.reqLock "o1" "alice", Op.reqLock "o1" "bob", Op.relLock "o1" "bob",
        Op.relLock "o1" "alice", Op.reqLock "o1" "bob"]) ∧
    ((runOps (RoomState.mk ["alice", "bob"] [⟨"o1", "c"⟩] [])
      [Op.reqLock "o1" "alice", Op.reqLock "o1" "bob", Op.relLock "o1" "bob",
        Op.relLock "o1" "alice", Op.reqLock "o1" "bob"]).locks.filter
          (fun p => p.1 == "o1")).length ≤ 1 :=
  ⟨by simp [locksWF],
    (lock_mutual_exclusion (RoomState.mk ["alice", "bob"] [⟨"o1", "c"⟩] [])
      [Op.reqLock "o1" "alice", Op.reqLock "o1" "bob", Op.relLock "o1" "bob",
        Op.relLock "o1" "alice", Op.reqLock "o1" "bob"] (by simp [locksWF])).1,
    (lock_mutual_exclusion (RoomState.mk ["alice", "bob"] [⟨"o1", "c"⟩] [])
      [Op.reqLock "o1" "alice", Op.reqLock "o1" "bob", Op.relLock "o1" "bob",
        Op.relLock "o1" "alice", Op.reqLock "o1" "bob"] (by simp [locksWF])).2.1 "o1"⟩

end CollabCanvas

namespace CollabCanvas

/-- C5: `releaseLock` removes the entry and broadcasts `object-unlocked` to all
members exactly when the current holder is the calling identity; any other
caller's release is a silent no-op that leaves the whole room state — including
any entry another holder has since acquired — unchanged and emits nothing. -/
theorem releaseLock_holder_check (r : RoomState) (objectId identity : String) :
    (lookupLock r.locks objectId = some identity →
      releaseLock r objectId identity =
        ({ r with locks := r.locks.filter (fun p => p.1 != objectId) },
          [⟨Dest.all, ServerEvent.objectUnlocked objectId⟩]) ∧
      lookupLock (releaseLock r objectId identity).1.locks objectId = none ∧
      (∀ k, k ≠ objectId →
        lookupLock (releaseLock r objectId identity).1.locks k = lookupLock r.locks k) ∧
      (releaseLock r objectId identity).1.participants = r.participants ∧
      (releaseLock r objectId identity).1.elements = r.elements) ∧
    (lookupLock r.locks objectId ≠ some identity →
      releaseLock r objectId identity = (r, [])) := by
  constructor
  · intro h
    refine ⟨?_, ?_, ?_, ?_, ?_⟩
    · simp [releaseLock, h]
    · simp [releaseLock, h, lookupLock_filter_self]
    · intro k hk
      simp [releaseLock, h, lookupLock_filter_other _ _ _ hk]
    · simp [releaseLock, h]
    · simp [releaseLock, h]
  · intro h
    unfold releaseLock
    cases hl : lookupLock r.locks objectId with
    | none => rfl
    | some holder =>
        have : holder ≠ identity := by
          intro he
          exact h (he ▸ hl)
        simp [this]

/-- C5 witness: a duplicate release from a prior holder does not evict the new
holder, and the holder's release removes exactly its entry. -/
theorem releaseLock_holder_check_witness :
    lookupLock (RoomState.mk ["a", "b"] [⟨"o1", "c"⟩] [("o1", "b")]).locks "o1" ≠ some "a" ∧
    releaseLock (RoomState.mk ["a", "b"] [⟨"o1", "c"⟩] [("o1", "b")]) "o1" "a" =
      (RoomState.mk ["a", "b"] [⟨"o1", "c"⟩] [("o1", "b")], []) :=
  ⟨by decide,
    (releaseLock_holder_check (RoomState.mk ["a", "b"] [⟨"o1", "c"⟩] [("o1", "b")])
      "o1" "a").2 (by decide)⟩

/-- C7: `requestLock` on an objectId with no corresponding drawing element
fails with `ObjectNotFound`; the dispatched event leaves the room state
unchanged (no lock entry is created) and reports to the sender only. -/
theorem requestLock_ghost (r : RoomState) (objectId identity : String)
    (h : elemExists r objectId = false) :
    requestLock r objectId identity = Except.error RoomError.ObjectNotFound ∧
    applyOp r (Op.reqLock objectId identity) =
      (r, [⟨Dest.sender, ServerEvent.errorEvt "Object not found"⟩]) := by
  have hreq : requestLock r objectId identity = Except.error RoomError.ObjectNotFound := by
    simp [requestLock, h]
  exact ⟨hreq, by simp [applyOp, hreq]⟩

/-- C3: `requestLock` on an existing objectId grants when the object is
unlocked (inserting the entry and broadcasting `object-locked` to all members)
or already held by the requester (idempotent reacquire, same broadcast, the
entry still maps to the requester); when held by a different identity it sends
`lock-denied` naming the current holder to the requester only and leaves the
entire room state unchanged. -/
theorem requestLock_contract (r : RoomState) (objectId identity : String)
    (hex : elemExists r objectId = true) :
    (lookupLock r.locks objectId = none →
      requestLock r objectId identity =
        Except.ok ({ r with locks := (objectId, identity) :: r.locks },
          [⟨Dest.all, ServerEvent.objectLocked objectId identity⟩]) ∧
      lookupLock ((objectId, identity) :: r.locks) objectId = some identity) ∧
    (lookupLock r.locks objectId = some identity →
      requestLock r objectId identity =
        Except.ok (r, [⟨Dest.all, ServerEvent.objectLocked objectId identity⟩])) ∧
    (∀ v, lookupLock r.locks objectId = some v → v ≠ identity →
      requestLock r objectId identity =
        Except.ok (r, [⟨Dest.sender, ServerEvent.lockDenied objectId v⟩])) := by
  refine ⟨fun h => ⟨?_, ?_⟩, fun h => ?_, fun v h hv => ?_⟩
  · simp [requestLock, hex, h]
  · simp [lookupLock]
  · simp [requestLock, hex, h]
  · simp [requestLock, hex, h, hv]

/-- C3 witness: a grant on an unlocked object and a denial naming the holder,
at concrete inputs. -/
theorem requestLock_contract_witness :
    elemExists (RoomState.mk ["a", "b"] [⟨"o1", "c"⟩] [("o1", "b")]) "o1" = true ∧
    lookupLock (RoomState.mk ["a", "b"] [⟨"o1", "c"⟩] [("o1", "b")]).locks "o1" = some "b" ∧
    requestLock (RoomState.mk ["a", "b"] [⟨"o1", "c"⟩] [("o1", "b")]) "o1" "a" =
      Except.ok (RoomState.mk ["a", "b"] [⟨"o1", "c"⟩] [("o1", "b")],
        [⟨Dest.sender, ServerEvent.lockDenied "o1" "b"⟩]) :=
  ⟨by decide, by decide,
    (requestLock_contract (RoomState.mk ["a", "b"] [⟨"o1", "c"⟩] [("o1", "b")])
      "o1" "a" (by decide)).2.2 "b" (by decide) (by decide)⟩

/-- C2: a drawing-update naming an existing objectId is accepted (its element
upserted and the update broadcast to the other members) exactly when the
object is unlocked or locked by the sender; when locked by someone else the
event is rejected with a sender-only error and the room state — in particular
the element's content — is unchanged; an update whose objectId does not yet
exist (creation) is always accepted. -/
theorem drawingUpdate_lock_policy (r : RoomState) (identity : String)
    (e : DrawingElement) :
    (elemExists r e.objectId = true →
      (lookupLock r.locks e.objectId = none ∨ lookupLock r.locks e.objectId = some identity →
        drawingUpdate r identity e =
          ({ r with elements := upsertElement r.elements e },
            [⟨Dest.others, ServerEvent.drawingUpdateEvt e⟩]))) ∧
    (elemExists r e.objectId = true →
      (∀ v, lookupLock r.locks e.objectId = some v → v ≠ identity →
        (drawingUpdate r identity e).1 = r ∧
        (drawingUpdate r identity e).2 =
          [⟨Dest.sender, ServerEvent.errorEvt "Object is locked by another user"⟩])) ∧
    (elemExists r e.objectId = false →
      drawingUpdate r identity e =
        ({ r with elements := upsertElement r.elements e },
          [⟨Dest.others, ServerEvent.drawingUpdateEvt e⟩])) ∧
    (elemExists r e.objectId = true →
      ((drawingUpdate r identity e).2 = [⟨Dest.others, ServerEvent.drawingUpdateEvt e⟩] ↔
        (lookupLock r.locks e.objectId = none ∨
          lookupLock r.locks e.objectId = some identity))) := by
  refine ⟨fun hex h => ?_, fun hex v h hv => ?_, fun hex => ?_, fun hex => ⟨fun hacc => ?_, ?_⟩⟩
  · rcases h with h | h
    · simp [drawingUpdate, hex, h]
    · simp [drawingUpdate, hex, h]
  · constructor
    · simp [drawingUpdate, hex, h, hv]
    · simp [drawingUpdate, hex, h, hv]
  · simp [drawingUpdate, hex]
  · by_cases h : lookupLock r.locks e.objectId = none
    · exact Or.inl h
    · rcases Option.ne_none_iff_exists'.mp h with ⟨v, hv⟩
      right
      by_contra hne
      have hvne : v ≠ identity := fun he => hne (he ▸ hv)
      have : (drawingUpdate r identity e).2 =
          [⟨Dest.sender, ServerEvent.errorEvt "Object is locked by another user"⟩] := by
        simp [drawingUpdate, hex, hv, hvne]
      rw [this] at hacc
      simp at hacc
  · intro h
    rcases h with h | h
    · simp [drawingUpdate, hex, h]
    · simp [drawingUpdate, hex, h]

/-- C2 witness: a non-holder's update to a locked object is rejected with a
sender-only error. -/
theorem drawingUpdate_lock_policy_witness :
    elemExists (RoomState.mk ["a", "b"] [⟨"o1", "old"⟩] [("o1", "b")])
      (DrawingElement.mk "o1" "new").objectId = true ∧
    (drawingUpdate (RoomState.mk ["a", "b"] [⟨"o1", "old"⟩] [("o1", "b")]) "a"
        (DrawingElement.mk "o1" "new")).1 =
      RoomState.mk ["a", "b"] [⟨"o1", "old"⟩] [("o1", "b")] ∧
    (drawingUpdate (RoomState.mk ["a", "b"] [⟨"o1", "old"⟩] [("o1", "b")]) "a"
        (DrawingElement.mk "o1" "new")).2 =
      [⟨Dest.sender, ServerEvent.errorEvt "Object is locked by another user"⟩] := by
  have h := (drawingUpdate_lock_policy (RoomState.mk ["a", "b"] [⟨"o1", "old"⟩] [("o1", "b")])
    "a" (DrawingElement.mk "o1" "new")).2.1 (by decide) "b" (by decide) (by decide)
  exact ⟨by decide, h.1, h.2⟩

/-- C7 witness: locking an absent objectId in a room with one element fails. -/
theorem requestLock_ghost_witness :
    elemExists (RoomState.mk ["a"] [⟨"o1", "c"⟩] []) "ghost" = false ∧
    requestLock (RoomState.mk ["a"] [⟨"o1", "c"⟩] []) "ghost" "a" =
      Except.error RoomError.ObjectNotFound :=
  ⟨by decide,
    (requestLock_ghost (RoomState.mk ["a"] [⟨"o1", "c"⟩] []) "ghost" "a" (by decide)).1⟩

end CollabCanvas

namespace CollabCanvas

lemma drawingUpdate_create_elements (r : RoomState) (identity : String)
    (e : DrawingElement) (hnew : elemExists r e.objectId = false) :
    (drawingUpdate r identity e).1.elements = r.elements ++ [e] := by
  have hany : (r.elements.any fun x => x.objectId == e.objectId) = false := hnew
  simp only [drawingUpdate, hnew, upsertElement, hany]
  rfl

lemma drawingUpdate_unlocked_elements (r : RoomState) (identity : String)
    (e : DrawingElement) (hlock : lookupLock r.locks e.objectId = none) :
    (drawingUpdate r identity e).1.elements = upsertElement r.elements e := by
  by_cases hel : elemExists r e.objectId
  · simp only [drawingUpdate, hel, hlock]
    rfl
  · simp only [drawingUpdate, hel]
    rfl

/-- C6: creating a new element with `drawingUpdate` and then updating the same
objectId with modified fields yields the original list with exactly one
element for that objectId, carrying the latest fields (overwrite in place,
not append); identifier uniqueness within the room is preserved. -/
theorem drawingUpdate_upsert_roundtrip (r : RoomState) (identity : String)
    (e1 e2 : DrawingElement) (oid : String)
    (h1 : e1.objectId = oid) (h2 : e2.objectId = oid)
    (hnew : elemExists r oid = false)
    (hunlocked : lookupLock r.locks oid = none) :
    (drawingUpdate (drawingUpdate r identity e1).1 identity e2).1.elements
      = r.elements ++ [e2] ∧
    ((drawingUpdate (drawingUpdate r identity e1).1 identity e2).1.elements.countP
        (fun x => x.objectId == oid)) = 1 ∧
    ((r.elements.map DrawingElement.objectId).Nodup →
      ((drawingUpdate (drawingUpdate r identity e1).1 identity e2).1.elements.map
          DrawingElement.objectId).Nodup) := by
  have hall : ∀ x ∈ r.elements, ¬(x.objectId = oid) := by
    simpa [elemExists] using hnew
  have hnew1 : elemExists r e1.objectId = false := by
    rw [h1]
    exact hnew
  have hr1e : (drawingUpdate r identity e1).1.elements = r.elements ++ [e1] :=
    drawingUpdate_create_elements r identity e1 hnew1
  have hlock : lookupLock (drawingUpdate r identity e1).1.locks e2.objectId = none := by
    rw [drawingUpdate_fst_locks, h2]
    exact hunlocked
  have hel : ((drawingUpdate r identity e1).1.elements.any
      fun x => x.objectId == e2.objectId) = true := by
    rw [hr1e, List.any_append]
    have hone : [e1].any (fun x => x.objectId == e2.objectId) = true := by
      simp [h1, h2]
    rw [hone, Bool.or_true]
  have hsecond : (drawingUpdate (drawingUpdate r identity e1).1 identity e2).1.elements
      = ((r.elements ++ [e1]).map (fun x => if x.objectId = e2.objectId then e2 else x)) := by
    rw [drawingUpdate_unlocked_elements _ identity e2 hlock]
    simp only [upsertElement, hel, if_true]
    rw [hr1e]
  have hmap : ((r.elements ++ [e1]).map
      (fun x => if x.objectId = e2.objectId then e2 else x)) = r.elements ++ [e2] := by
    rw [List.map_append]
    congr 1
    · have hid : ∀ x ∈ r.elements, (if x.objectId = e2.objectId then e2 else x) = x := by
        intro x hx
        rw [if_neg]
        rw [h2]
        exact hall x hx
      rw [List.map_congr_left hid]
      exact List.map_id r.elements
    · simp [h1, h2]
  have hfinal : (drawingUpdate (drawingUpdate r identity e1).1 identity e2).1.elements
      = r.elements ++ [e2] := hsecond.trans hmap
  refine ⟨hfinal, ?_, ?_⟩
  · rw [hfinal, List.countP_append]
    have hz : r.elements.countP (fun x => x.objectId == oid) = 0 := by
      rw [List.countP_eq_zero]
      intro a ha
      simp [hall a ha]
    simp [hz, h2]
  · intro hnd
    rw [hfinal, List.map_append]
    refine List.Nodup.append hnd (by simp) ?_
    intro a ha hb
    rcases List.mem_map.mp ha with ⟨x, hx, hxa⟩
    have hb2 : a = oid := by
      simpa [h2] using hb
    exact hall x hx (hxa.trans hb2)

/-- C6 witness: create then modify one objectId in a room with an unrelated
element; exactly one element with that objectId survives, with the new
fields. -/
theorem drawingUpdate_upsert_roundtrip_witness :
    (DrawingElement.mk "o1" "v1").objectId = "o1" ∧
    (DrawingElement.mk "o1" "v2").objectId = "o1" ∧
    elemExists (RoomState.mk ["a"] [⟨"x", "c"⟩] []) "o1" = false ∧
    lookupLock (RoomState.mk ["a"] [⟨"x", "c"⟩] []).locks "o1" = none ∧
    (drawingUpdate (drawingUpdate (RoomState.mk ["a"] [⟨"x", "c"⟩] []) "a"
        (DrawingElement.mk "o1" "v1")).1 "a" (DrawingElement.mk "o1" "v2")).1.elements
      = [⟨"x", "c"⟩, ⟨"o1", "v2"⟩] ∧
    ((drawingUpdate (drawingUpdate (RoomState.mk ["a"] [⟨"x", "c"⟩] []) "a"
        (DrawingElement.mk "o1" "v1")).1 "a" (DrawingElement.mk "o1" "v2")).1.elements.countP
        (fun x => x.objectId == "o1")) = 1 := by
  have h := drawingUpdate_upsert_roundtrip (RoomState.mk ["a"] [⟨"x", "c"⟩] []) "a"
    (DrawingElement.mk "o1" "v1") (DrawingElement.mk "o1" "v2") "o1"
    (by decide) (by decide) (by decide) (by decide)
  exact ⟨by decide, by decide, by decide, by decide, h.1, h.2.1⟩

end CollabCanvas

namespace UndoRedo

variable {T : Type}

lemma limitPast_of_le {m : Nat} {l : List T} (h : l.length ≤ m) :
    limitPast m l = l := by
  unfold limitPast
  rw [if_neg (by omega)]

lemma length_limitPast_le {m : Nat} (hm : 1 ≤ m) (l : List T) :
    (limitPast m l).length ≤ m := by
  unfold limitPast
  split
  · rw [if_neg (by omega)]
    simp only [List.length_drop]
    omega
  · rename_i h
    omega

/-- The reachable-state invariant: the history never outgrows the cap. -/
def sizeBound (m : Nat) (s : HistoryState T) : Prop :=
  s.past.length + s.future.length ≤ m

lemma sizeBound_applyHOp [DecidableEq T] (cfg : UndoRedoConfig T)
    (hm : 1 ≤ cfg.maxHistorySize) (s : HistoryState T) (op : HOp T)
    (h : sizeBound cfg.maxHistorySize s) :
    sizeBound cfg.maxHistorySize (applyHOp cfg s op) := by
  obtain ⟨past, present, future⟩ := s
  unfold sizeBound at h
  simp only at h
  cases op with
  | set x b =>
      simp only [applyHOp, setState]
      split
      · exact h
      · split
        · exact h
        · split
          · unfold sizeBound
            simp only [List.length_nil, Nat.add_zero]
            exact length_limitPast_le hm _
          · exact h
  | undoOp =>
      simp only [applyHOp, undo]
      cases hp : past.getLast? with
      | none => exact h
      | some prev =>
          have hne : past ≠ [] := by
            intro he
            rw [he] at hp
            simp [List.getLast?] at hp
          have hpos : 1 ≤ past.length := List.length_pos.mpr hne
          unfold sizeBound
          simp only [List.length_dropLast, List.length_cons]
          omega
  | redoOp =>
      simp only [applyHOp, redo]
      cases future with
      | nil => exact h
      | cons next rest =>
          simp only [List.length_cons] at h
          have hle : (past ++ [present]).length ≤ cfg.maxHistorySize := by
            simp only [List.length_append, List.length_singleton]
            omega
          unfold sizeBound
          simp only [limitPast_of_le hle, List.length_append, List.length_singleton]
          omega
  | replace x => exact h
  | clear =>
      unfold sizeBound
      simp [applyHOp, clearHistory]

lemma sizeBound_runHOps [DecidableEq T] (cfg : UndoRedoConfig T)
    (hm : 1 ≤ cfg.maxHistorySize) (initialState : T) (ops : List (HOp T)) :
    sizeBound cfg.maxHistorySize (runHOps cfg initialState ops) := by
  have hstep : ∀ (l : List (HOp T)) (s : HistoryState T),
      sizeBound cfg.maxHistorySize s →
      sizeBound cfg.maxHistorySize (l.foldl (applyHOp cfg) s) := by
    intro l
    induction l with
    | nil => intro s hs; exact hs
    | cons op rest ih =>
        intro s hs
        exact ih _ (sizeBound_applyHOp cfg hm s op hs)
  apply hstep
  unfold sizeBound
  simp

lemma redo_undo_eq [DecidableEq T] (cfg : UndoRedoConfig T) (s : HistoryState T)
    (hpast : s.past ≠ []) (hlen : s.past.length ≤ cfg.maxHistorySize) :
    redo cfg (undo s) = s := by
  obtain ⟨past, present, future⟩ := s
  simp only at hpast hlen
  rcases List.eq_nil_or_concat past with hnil | ⟨l, b, rfl⟩
  · exact absurd hnil hpast
  · simp only [List.concat_eq_append] at hlen ⊢
    simp only [undo, List.getLast?_concat, List.dropLast_concat, redo]
    rw [limitPast_of_le hlen]

lemma undo_redo_eq [DecidableEq T] (cfg : UndoRedoConfig T) (s : HistoryState T)
    (hfut : s.future ≠ []) (hlen : s.past.length + 1 ≤ cfg.maxHistorySize) :
    undo (redo cfg s) = s := by
  obtain ⟨past, present, future⟩ := s
  simp only at hfut hlen
  cases future with
  | nil => exact absurd rfl hfut
  | cons next rest =>
      have hle : (past ++ [present]).length ≤ cfg.maxHistorySize := by
        simp only [List.length_append, List.length_singleton]
        omega
      simp only [redo, limitPast_of_le hle, undo, List.getLast?_concat,
        List.dropLast_concat]

/-- C8: on every state the hook can reach, undo-then-redo restores the state
whenever `past` is non-empty, redo-then-undo restores it whenever `future` is
non-empty, `canUndo`/`canRedo` hold exactly when `past`/`future` are
non-empty, and undo/redo on an empty `past`/`future` are no-ops. -/
theorem useUndoRedo_undo_redo_roundtrip {T : Type} [DecidableEq T]
    (cfg : UndoRedoConfig T) (hm : 1 ≤ cfg.maxHistorySize) (initialState : T)
    (ops : List (HOp T)) :
    (canUndo (runHOps cfg initialState ops) = true ↔
      (runHOps cfg initialState ops).past ≠ []) ∧
    (canRedo (runHOps cfg initialState ops) = true ↔
      (runHOps cfg initialState ops).future ≠ []) ∧
    ((runHOps cfg initialState ops).past = [] →
      undo (runHOps cfg initialState ops) = runHOps cfg initialState ops) ∧
    ((runHOps cfg initialState ops).future = [] →
      redo cfg (runHOps cfg initialState ops) = runHOps cfg initialState ops) ∧
    ((runHOps cfg initialState ops).past ≠ [] →
      redo cfg (undo (runHOps cfg initialState ops)) = runHOps cfg initialState ops) ∧
    ((runHOps cfg initialState ops).future ≠ [] →
      undo (redo cfg (runHOps cfg initialState ops)) = runHOps cfg initialState ops) := by
  have hsb := sizeBound_runHOps cfg hm initialState ops
  unfold sizeBound at hsb
  refine ⟨?_, ?_, ?_, ?_, ?_, ?_⟩
  · simp [canUndo, List.length_pos]
  · simp [canRedo, List.length_pos]
  · intro h
    simp [undo, h, List.getLast?]
  · intro h
    simp [redo, h]
  · intro h
    exact redo_undo_eq cfg _ h (by omega)
  · intro h
    have hfl : 1 ≤ (runHOps cfg initialState ops).future.length :=
      List.length_pos.mpr h
    exact undo_redo_eq cfg _ h (by omega)

/-- C8 witness: after two recorded updates and one undo, both round trips and
both availability flags behave as claimed, at concrete inputs. -/
theorem useUndoRedo_undo_redo_roundtrip_witness :
    1 ≤ (UndoRedoConfig.mk 50 true (fun _ => false) : UndoRedoConfig Nat).maxHistorySize ∧
    (runHOps (UndoRedoConfig.mk 50 true (fun _ => false)) 0
      [HOp.set 1 true, HOp.set 2 true, HOp.undoOp]).past ≠ [] ∧
    redo (UndoRedoConfig.mk 50 true (fun _ => false))
      (undo (runHOps (UndoRedoConfig.mk 50 true (fun _ => false)) 0
        [HOp.set 1 true, HOp.set 2 true, HOp.undoOp]))
      = runHOps (UndoRedoConfig.mk 50 true (fun _ => false)) 0
        [HOp.set 1 true, HOp.set 2 true, HOp.undoOp] ∧
    undo (redo (UndoRedoConfig.mk 50 true (fun _ => false))
      (runHOps (UndoRedoConfig.mk 50 true (fun _ => false)) 0
        [HOp.set 1 true, HOp.set 2 true, HOp.undoOp]))
      = runHOps (UndoRedoConfig.mk 50 true (fun _ => false)) 0
        [HOp.set 1 true, HOp.set 2 true, HOp.undoOp] := by
  have h := useUndoRedo_undo_redo_roundtrip
    (UndoRedoConfig.mk 50 true (fun _ => false)) (by decide) 0
    [HOp.set 1 true, HOp.set 2 true, HOp.undoOp]
  exact ⟨by decide, by decide, h.2.2.2.2.1 (by decide), h.2.2.2.2.2 (by decide)⟩

/-- C9: after every sequence of hook calls the `past` array never outgrows
`maxHistorySize`; the truncation used by `setState` and `redo` keeps exactly
the most recent `maxHistorySize` entries; and every `setState` that records
history clears `future` entirely. -/
theorem useUndoRedo_bounded_history {T : Type} [DecidableEq T]
    (cfg : UndoRedoConfig T) (hm : 1 ≤ cfg.maxHistorySize) (initialState : T)
    (ops : List (HOp T)) :
    (runHOps cfg initialState ops).past.length ≤ cfg.maxHistorySize ∧
    (∀ l : List T, limitPast cfg.maxHistorySize l = l.drop (l.length - cfg.maxHistorySize)) ∧
    (∀ (s : HistoryState T) (x : T),
      (cfg.ignoreIdenticalStates = false ∨ x ≠ s.present) →
      cfg.shouldIgnore x = false →
      (setState cfg s x true).future = []) := by
  refine ⟨?_, ?_, ?_⟩
  · have hsb := sizeBound_runHOps cfg hm initialState ops
    unfold sizeBound at hsb
    omega
  · intro l
    unfold limitPast
    split
    · rw [if_neg (by omega)]
    · rename_i hlen
      have : l.length - cfg.maxHistorySize = 0 := by omega
      rw [this, List.drop_zero]
  · intro s x hidn hignore
    have hcond : (cfg.ignoreIdenticalStates && decide (x = s.present)) = false := by
      rcases hidn with h1 | h1
      · simp [h1]
      · simp [h1]
    simp [setState, hcond, hignore]

/-- C9 witness: with the cap set to 2, three recorded updates leave a `past`
of length 2 and an empty `future`, at concrete inputs. -/
theorem useUndoRedo_bounded_history_witness :
    1 ≤ (UndoRedoConfig.mk 2 true (fun _ => false) : UndoRedoConfig Nat).maxHistorySize ∧
    (runHOps (UndoRedoConfig.mk 2 true (fun _ => false)) 0
      [HOp.set 1 true, HOp.set 2 true, HOp.set 3 true]).past.length
      ≤ (UndoRedoConfig.mk 2 true (fun _ => false) : UndoRedoConfig Nat).maxHistorySize ∧
    limitPast (UndoRedoConfig.mk 2 true (fun _ => false) :
        UndoRedoConfig Nat).maxHistorySize [10, 20, 30]
      = List.drop ([10, 20, 30].length -
          (UndoRedoConfig.mk 2 true (fun _ => false) : UndoRedoConfig Nat).maxHistorySize)
        [10, 20, 30] := by
  have h := useUndoRedo_bounded_history
    (UndoRedoConfig.mk 2 true (fun _ => false)) (by decide) 0
    [HOp.set 1 true, HOp.set 2 true, HOp.set 3 true]
  exact ⟨by decide, h.1, h.2.1 [10, 20, 30]⟩

end UndoRedo

namespace Counter

/-- C10: for positive `maxLength`, the status is `warning` exactly when the
percentage is at least `warningThreshold` and strictly below 100, `danger`
exactly when `currentLength` strictly exceeds `maxLength`; at
`currentLength = maxLength` the status is `normal` and the message reads
`0 characters remaining`; the rendered progress-bar width is capped at 100. -/
theorem characterCounter_boundary (currentLength maxLength : Nat)
    (warningThreshold : ℚ) (hm : 0 < maxLength) :
    ((characterCounter currentLength maxLength warningThreshold).status = "warning" ↔
      (warningThreshold ≤ (currentLength : ℚ) / (maxLength : ℚ) * 100 ∧
        (currentLength : ℚ) / (maxLength : ℚ) * 100 < 100)) ∧
    ((characterCounter currentLength maxLength warningThreshold).status = "danger" ↔
      maxLength < currentLength) ∧
    (currentLength = maxLength →
      (characterCounter currentLength maxLength warningThreshold).status = "normal" ∧
      (characterCounter currentLength maxLength warningThreshold).message
        = "0 characters remaining") ∧
    (characterCounter currentLength maxLength warningThreshold).widthPercent ≤ 100 := by
  have hmq : (0 : ℚ) < (maxLength : ℚ) := by exact_mod_cast hm
  have hkey : ((currentLength : ℚ) / (maxLength : ℚ) * 100 < 100) ↔
      currentLength < maxLength := by
    have h1 : ((currentLength : ℚ) / (maxLength : ℚ) * 100 < 100) ↔
        (currentLength : ℚ) / (maxLength : ℚ) < 1 := by
      constructor <;> intro h <;> nlinarith
    rw [h1, div_lt_one hmq]
    exact_mod_cast Iff.rfl
  refine ⟨?_, ?_, ?_, ?_⟩
  · simp only [characterCounter]
    by_cases hw : warningThreshold ≤ (currentLength : ℚ) / (maxLength : ℚ) * 100 ∧
        (currentLength : ℚ) / (maxLength : ℚ) * 100 < 100
    · simp [hw]
    · simp only [hw, if_false]
      split <;> simp [hw]
  · simp only [characterCounter]
    by_cases hw : warningThreshold ≤ (currentLength : ℚ) / (maxLength : ℚ) * 100 ∧
        (currentLength : ℚ) / (maxLength : ℚ) * 100 < 100
    · have : ¬ maxLength < currentLength := by
        have := hkey.mp hw.2
        omega
      simp [hw, this]
    · simp only [hw, if_false]
      by_cases hd : maxLength < currentLength
      · have hdi : (maxLength : Int) < (currentLength : Int) := by exact_mod_cast hd
        simp [hdi, hd]
      · have hdi : ¬ (maxLength : Int) < (currentLength : Int) := by exact_mod_cast hd
        simp [hdi, hd]
  · intro he
    subst he
    have hp : (currentLength : ℚ) / (currentLength : ℚ) * 100 = 100 := by
      rw [div_self (ne_of_gt hmq)]
      ring
    constructor
    · simp only [characterCounter, hp]
      have hw : ¬ (warningThreshold ≤ (100 : ℚ) ∧ (100 : ℚ) < 100) := by
        intro h
        exact absurd h.2 (lt_irrefl _)
      rw [if_neg hw, if_neg (by omega)]
    · simp only [characterCounter, getMessage, sub_self]
      norm_num
      decide
  · simp only [characterCounter]
    exact min_le_right _ _

/-- C10 witness: at the boundary `currentLength = maxLength = 10` the counter
is `normal` with message `0 characters remaining` and a width of at most
100%. -/
theorem characterCounter_boundary_witness :
    0 < 10 ∧
    (characterCounter 10 10 80).status = "normal" ∧
    (characterCounter 10 10 80).message = "0 characters remaining" ∧
    (characterCounter 10 10 80).widthPercent ≤ 100 := by
  have h := characterCounter_boundary 10 10 80 (by decide)
  exact ⟨by decide, (h.2.2.1 rfl).1, (h.2.2.1 rfl).2, h.2.2.2⟩

end Counter
